import Mathlib

/-!
A shallow embedding of `src/common/LuaSupport.cpp` (Surge's Lua support
layer) and proofs about its components: the FFT resource cache, the Lua
numeric primitives (`lua_limitRange`, `lua_FFTForward`), the script loader
(`parseStringDefiningMultipleFunctions`), the sandbox environment builder
(`setSurgeFunctionEnvironment`), the prelude loader (`loadSurgePrelude`) and
the stack-discipline guard (`SGLD`).

Lua values are modelled by the inductive `SV`; the Lua operand stack is a
`List SV` with the top of the stack at the head (so the C API index `-1` is
the head, `-2` the second element, and so on).  Tables live in explicit
heaps (lists indexed by table id) so that reference identity and mutation
are observable.  The scripting engine itself (compiler, bytecode VM, pffft)
is an external collaborator: its outcomes enter the model as explicit
parameters (compile results, pcall outcomes, the transform kernel).
-/

/-- Tags for the C functions this layer registers with the Lua engine. -/
inductive CF where
  | limitRange
  | fftForward
  | fftInverse
deriving DecidableEq, Repr

/-- A Lua value as seen through the C API: nil, a number, a string, a
boolean, a reference to a table, a reference to a Lua function, or a
registered C function. -/
inductive SV where
  | nil
  | num (q : ℚ)
  | str (s : String)
  | boolean (b : Bool)
  | tableref (id : Nat)
  | funcref (id : Nat)
  | cfun (c : CF)
deriving DecidableEq, Repr

/-- `lua_isfunction`: true for Lua functions and C functions. -/
def SV.isCallable : SV → Bool
  | SV.funcref _ => true
  | SV.cfun _ => true
  | _ => false

/-- `lua_isnil`. -/
def SV.isNil : SV → Bool
  | SV.nil => true
  | _ => false

/-- `static const bool IsPowerOfTwo(size_t x) \x7b return x && (x & (x - 1)) == 0; \x7d`
(LuaSupport.cpp line 69). -/
def IsPowerOfTwo (x : Nat) : Bool :=
  decide (x ≠ 0) && (x &&& (x - 1) == 0)

/-! ### The FFT resource cache (`FFTElement`, `fftCache`) -/

/-- `FFTElement` (LuaSupport.cpp lines 33-58): the bundle held per cache
entry.  Its constructor `FFTElement(std::size_t sz)` allocates an aligned
scratch buffer of `sz` floats (`pffft_aligned_malloc(sizeof(float) * sz)`)
and a pffft plan for a real transform of length `sz`
(`pffft_new_setup(sz, PFFFT_REAL)`); its destructor frees both, so buffer
and plan are co-allocated and co-destroyed as a single value.  We record
the buffer length and the plan's transform length. -/
structure FFTElement where
  size : Nat
  dataLen : Nat
  setupSize : Nat
deriving DecidableEq, Repr

/-- The body of `FFTElement(std::size_t sz)`. -/
def FFTElement.make (sz : Nat) : FFTElement :=
  { size := sz, dataLen := sz, setupSize := sz }

/-- Modelled from the spec: `sst::cpputils::LRU<std::size_t, FFTElement>`
(the header `sst/cpputils/lru_cache.h` is not part of this repository's
sources).  Spec §4.1: "bounded least-recently-used cache mapping a
transform size to a lazily-constructed native resource bundle"; `get(size)`
returns the existing resource on a hit and marks it most-recently-used; on
a miss it constructs a new resource, inserts it, and if the cache now
exceeds capacity evicts the least-recently-used entry.  Entries are kept
most-recently-used first. -/
structure LRU where
  capacity : Nat
  entries : List (Nat × FFTElement)
deriving DecidableEq, Repr

/-- Look a key up without touching recency (used to state properties). -/
def LRU.lookup (c : LRU) (k : Nat) : Option FFTElement :=
  (c.entries.find? (fun p => p.1 == k)).map (fun p => p.2)

/-- Modelled from the spec: `LRU::get`.  Returns the resource, a flag that
is `true` exactly when the resource was freshly constructed (a miss), and
the updated cache. -/
def LRU.get (c : LRU) (k : Nat) : FFTElement × Bool × LRU :=
  match c.entries.find? (fun p => p.1 == k) with
  | some p =>
      (p.2, false,
        { c with entries := (k, p.2) :: c.entries.filter (fun q => q.1 ≠ k) })
  | none =>
      let v := FFTElement.make k
      (v, true, { c with entries := ((k, v) :: c.entries).take c.capacity })

/-- `fftCache` (LuaSupport.cpp lines 65-67): a process-wide LRU of capacity
5, starting empty. -/
def fftCache : LRU := { capacity := 5, entries := [] }

/-- Run a sequence of `get(size)` requests against a cache. -/
def runGets (c : LRU) (ks : List Nat) : LRU :=
  ks.foldl (fun c k => (c.get k).2.2) c

/-- The structural invariant of the cache: distinct keys, at most
`capacity` entries, and every entry's buffer and plan sized exactly to its
key. -/
def LRU.WF (c : LRU) : Prop :=
  (c.entries.map Prod.fst).Nodup ∧
  c.entries.length ≤ c.capacity ∧
  ∀ p ∈ c.entries, p.2.size = p.1 ∧ p.2.dataLen = p.1 ∧ p.2.setupSize = p.1

/-! ### The script loader (`parseStringDefiningMultipleFunctions`) -/

/-- Outcome of `luaL_loadbuffer` on the script text, as reported by the
engine (an external collaborator): success, a syntax error
(`LUA_ERRSYNTAX`) with the engine's message, or another load error. -/
inductive CompileResult where
  | ok
  | synErr (msg : String)
  | otherErr (msg : String)
deriving DecidableEq, Repr

/-- Outcome of `lua_pcall(L, 0, 0, 0)` on the compiled chunk: success with
the globals the chunk left behind, or a runtime error with the engine's
message. -/
inductive ExecOutcome where
  | ok (newGlobals : String → SV)
  | err (msg : String)

/-- The engine state as the loader sees it: the global table and the
operand stack (top first). -/
structure LoaderState where
  globals : String → SV
  stack : List SV

/-- Result of `parseStringDefiningMultipleFunctions`: the returned count,
the `errorMessage` out-parameter, and the engine state on exit. -/
structure ParseResult where
  count : Nat
  errorMessage : String
  state : LoaderState

/-- The extraction loop (LuaSupport.cpp lines 122-135), iterating over the
requested names in reverse (`frev`).  For each name it runs
`lua_getglobal` (pushing the global's value), counts it if
`lua_isfunction`, and otherwise, if the value is not nil, pops it and
pushes nil in its place.  The global table itself is not written. -/
def extractLoop (g : String → SV) : List String → List SV → Nat → Nat × List SV
  | [], stk, res => (res, stk)
  | functionName :: rest, stk, res =>
      let v := g functionName
      let stk1 := v :: stk
      if v.isCallable then
        extractLoop g rest stk1 (res + 1)
      else if !v.isNil then
        -- lua_pop(L, 1); lua_pushnil(L)
        extractLoop g rest (SV.nil :: stk1.tail) res
      else
        extractLoop g rest stk1 res

/-- `Surge::LuaSupport::parseStringDefiningMultipleFunctions`
(LuaSupport.cpp lines 81-141).  The engine's compile and execute steps are
supplied as oracles (`compile`, `exec`); `em0` is the incoming contents of
the `errorMessage` out-parameter. -/
def parseStringDefiningMultipleFunctions (compile : CompileResult)
    (exec : (String → SV) → ExecOutcome) (functions : List String)
    (em0 : String) (st : LoaderState) : ParseResult :=
  match compile with
  | CompileResult.synErr msg =>
      -- luaL_loadbuffer left the error message on the stack; the code
      -- formats the diagnostic, pops it, and pushes one nil per name.
      let st1 := { st with stack := SV.str msg :: st.stack }
      let st2 := { st1 with stack := st1.stack.tail }
      { count := 0,
        errorMessage := "Lua Syntax Error: " ++ msg,
        state := { st2 with
                   stack := List.replicate functions.length SV.nil ++ st2.stack } }
  | CompileResult.otherErr msg =>
      let st1 := { st with stack := SV.str msg :: st.stack }
      let st2 := { st1 with stack := st1.stack.tail }
      { count := 0,
        errorMessage := "Lua Unknown Error: " ++ msg,
        state := { st2 with
                   stack := List.replicate functions.length SV.nil ++ st2.stack } }
  | CompileResult.ok =>
      match exec st.globals with
      | ExecOutcome.err msg =>
          let st1 := { st with stack := SV.str msg :: st.stack }
          let st2 := { st1 with stack := st1.stack.tail }
          { count := 0,
            errorMessage := "Lua Evaluation Error: " ++ msg,
            state := { st2 with
                       stack := List.replicate functions.length SV.nil ++ st2.stack } }
      | ExecOutcome.ok g =>
          let r := extractLoop g functions.reverse st.stack 0
          { count := r.1,
            errorMessage := em0,
            state := { globals := g, stack := r.2 } }

/-- `Surge::LuaSupport::parseStringDefiningFunction` (LuaSupport.cpp lines
71-79): the single-name convenience wrapper, true iff the count is
exactly 1. -/
def parseStringDefiningFunction (compile : CompileResult)
    (exec : (String → SV) → ExecOutcome) (functionName : String)
    (em0 : String) (st : LoaderState) : Bool :=
  let res := parseStringDefiningMultipleFunctions compile exec [functionName] em0 st
  if res.count ≠ 1 then false else true

/-- The value the extraction loop leaves on the stack for a requested
name: the global itself when callable, nil otherwise. -/
def placeholder (g : String → SV) (n : String) : SV :=
  if (g n).isCallable then g n else SV.nil

/-! ### The sandbox environment builder (`setSurgeFunctionEnvironment`) -/

/-- A Lua table, as used by this layer: an association list from string
keys to values (the tables this code touches — the environment table, the
`math` and `surge` library tables — are string-keyed). -/
abbrev LTable : Type := List (String × SV)

/-- `lua_settable` on a string key: replace the binding if the key is
present, otherwise append a fresh binding. -/
def tset (t : LTable) (k : String) (v : SV) : LTable :=
  if t.any (fun p => p.1 == k) then
    t.map (fun p => if p.1 == k then (k, v) else p)
  else
    t ++ [(k, v)]

/-- `lua_gettable` / raw lookup: first binding for the key, nil if none. -/
def tget (t : LTable) (k : String) : SV :=
  ((t.find? (fun p => p.1 == k)).map (fun p => p.2)).getD SV.nil

/-- The engine state as the environment builder sees it: globals, a heap
of string-keyed tables (table id → contents), the environment binding of
every Lua function (`lua_setfenv` writes it), and the operand stack. -/
structure EnvState where
  globals : String → SV
  tables : List LTable
  funcEnvs : Nat → Option Nat
  stack : List SV

/-- Contents of the table with the given id (nil-filled empty table if the
id is dangling). -/
def EnvState.tableAt (st : EnvState) (id : Nat) : LTable :=
  st.tables.getD id []

/-- `functionWhitelist` (LuaSupport.cpp line 218). -/
def functionWhitelist : List String := ["ipairs", "error"]

/-- Lines 204-224: create the environment table, copy the `math` and
`surge` globals into it under their own names, then copy each whitelisted
global. -/
def envBase (g : String → SV) : LTable :=
  functionWhitelist.foldl (fun t f => tset t f (g f))
    (tset (tset [] "math" (g "math")) "surge" (g "surge"))

/-- Lines 226-236: register `limit_range` and `clamp` (both
`lua_limitRange`) and `fft_forward` (`lua_FFTForward`). -/
def envWithPrimitives (g : String → SV) : LTable :=
  tset (tset (tset (envBase g) "limit_range" (SV.cfun CF.limitRange))
      "clamp" (SV.cfun CF.limitRange))
    "fft_forward" (SV.cfun CF.fftForward)

/-- Lines 238-255: flatten the `math` table into the environment by
iterating its key/value pairs with `lua_next` and `lua_settable`. -/
def flattenMath (env : LTable) (mathT : LTable) : LTable :=
  mathT.foldl (fun e p => tset e p.1 p.2) env

/-- The full environment table the builder constructs for a wrapped
function, given the globals and the contents of the `math` table. -/
def surgeEnv (g : String → SV) (mathT : LTable) : LTable :=
  flattenMath (envWithPrimitives g) mathT

/-- `Surge::LuaSupport::setSurgeFunctionEnvironment` (LuaSupport.cpp lines
195-264).  If the top of the stack is not a function, returns false with
no effect.  Otherwise it builds the environment table (allocated as a
fresh table in the heap) and binds it with `lua_setfenv(L, -2)` to the
function on the stack; the function itself stays on the stack.  The
flattening loop runs `lua_next` over the `math` global, which for the
states this layer runs in is a table; a non-table `math` would make
`lua_next` raise an engine error, which is outside this model (the
theorems below assume `math` is a table). -/
def setSurgeFunctionEnvironment (st : EnvState) : Bool × EnvState :=
  match st.stack with
  | [] => (false, st)
  | v :: _ =>
      if v.isCallable then
        let mathT :=
          match st.globals "math" with
          | SV.tableref mid => st.tableAt mid
          | _ => []
        let env := surgeEnv st.globals mathT
        let envId := st.tables.length
        let st1 := { st with tables := st.tables ++ [env] }
        let st2 :=
          match v with
          | SV.funcref fid =>
              { st1 with
                funcEnvs := fun i => if i = fid then some envId else st1.funcEnvs i }
          | _ => st1
        (true, st2)
      else
        (false, st)

/-- A global-identifier lookup performed while the Lua function `fid`
executes: after `lua_setfenv`, the function's environment table is its
exclusive variable-resolution scope, so the lookup reads that table; a
function with no private environment resolves against the globals. -/
def globalLookupInFunc (st : EnvState) (fid : Nat) (name : String) : SV :=
  match st.funcEnvs fid with
  | some eid => tget (st.tableAt eid) name
  | none => st.globals name

/-- The names the constructed environment can possibly bind: the two
library tables, the whitelist, the three registered primitives, and the
keys of the `math` table flattened in. -/
def allowedNames (mathT : LTable) : List String :=
  ["math", "surge", "ipairs", "error", "limit_range", "clamp", "fft_forward"] ++
    mathT.map Prod.fst

/-! ### The FFT primitive (`lua_FFTForward`) -/

/-- An error raised through the engine's own error channel
(`luaL_error` / `luaL_check*` → `lua_error` → `longjmp`), catchable by the
invoking script via `pcall`; never a host-level C++ exception. -/
inductive LuaErr where
  | invalidArgument (msg : String)
  | typeCheck (msg : String)
deriving DecidableEq, Repr

/-- `lua_tonumber` as used by `luaL_checknumber` on the values in this
model (numeric-string coercion never arises here). -/
def toNumber : SV → Option ℚ
  | SV.num q => some q
  | _ => none

/-- The input-read loop of `lua_FFTForward` (LuaSupport.cpp lines
170-175).  For each `i < n`: `lua_rawgeti(L, -1, i+1)` pushes element
`i+1` of the table addressed at `-1`, `luaL_checknumber(L, -2)` reads the
value addressed at `-2` (which is the input table, not the element just
pushed), and `lua_remove(L, -2)` deletes the slot at `-2`.  The stack is
top-first; `arr` is the array part of the input table. -/
def fftReadLoop (arr : List SV) (i : Nat) (stk : List SV) (acc : List ℚ) :
    Nat → Except LuaErr (List ℚ × List SV)
  | 0 => Except.ok (acc.reverse, stk)
  | remaining + 1 =>
      let stk1 := arr.getD i SV.nil :: stk
      match toNumber (stk1.getD 1 SV.nil) with
      | none => Except.error (LuaErr.typeCheck "number expected")
      | some q =>
          fftReadLoop arr (i + 1) (stk1.headD SV.nil :: stk1.drop 2) (q :: acc) remaining

/-- The output-write loop of `lua_FFTForward` (LuaSupport.cpp lines
179-183).  For each `i < n`: `lua_pushnumber(L, output[i])` pushes a
number, and `lua_rawseti(L, -1, i+1)` then addresses that freshly pushed
number itself as the target table; the engine's table check on the
`rawseti` target fails, so any iteration raises. -/
def fftWriteLoop (output : List ℚ) (i : Nat) (stk : List SV) :
    Nat → Except LuaErr (List SV)
  | 0 => Except.ok stk
  | remaining + 1 =>
      -- lua_pushnumber(L, output[i])
      let stk1 := SV.num (output.getD i 0) :: stk
      -- lua_rawseti(L, -1, i+1): the engine requires a table at index -1,
      -- but that slot holds the number just pushed, so the check fails.
      -- (Were it a table, rawseti would pop the value and store it.)
      match stk1.getD 0 SV.nil with
      | SV.tableref _ => fftWriteLoop output (i + 1) stk1.tail remaining
      | _ => Except.error (LuaErr.typeCheck "table expected")

/-- The engine state as `lua_FFTForward` sees it: a heap of array-style
tables (table id → array part), the FFT cache, and the operand stack. -/
structure FFTState where
  arrTables : List (List SV)
  cache : LRU
  stack : List SV

/-- `lua_FFTForward` (LuaSupport.cpp lines 158-186).  `transform` stands
for `pffft_transform(fft->setup, input, output, fft->data, PFFFT_FORWARD)`
(pffft is an external collaborator): given the plan size and the input
samples it yields the packed output samples.  An `Except.error` is an
error raised on the engine's error channel; no transform output is
produced in that case. -/
def lua_FFTForward (transform : Nat → List ℚ → List ℚ) (st : FFTState) :
    Except LuaErr FFTState :=
  match st.stack.headD SV.nil with
  | SV.tableref tid =>
      let arr := st.arrTables.getD tid []
      -- std::size_t n = lua_objlen(L, -1)
      let n := arr.length
      if IsPowerOfTwo n = false then
        Except.error (LuaErr.invalidArgument "FFT size must be a power of two.")
      else
        let fft := (st.cache.get n).1
        let cache1 := (st.cache.get n).2.2
        match fftReadLoop arr 0 st.stack [] n with
        | Except.error e => Except.error e
        | Except.ok r =>
            let output := transform fft.setupSize r.1
            -- lua_remove(L, -1); lua_newtable(L)
            let stk1 := r.2.tail
            let newId := st.arrTables.length
            let stk2 := SV.tableref newId :: stk1
            match fftWriteLoop output 0 stk2 n with
            | Except.error e => Except.error e
            | Except.ok stk3 =>
                Except.ok { arrTables := st.arrTables ++ [[]],
                            cache := cache1, stack := stk3 }
  | _ => Except.error (LuaErr.typeCheck "table expected")

/-! ### The prelude loader (`loadSurgePrelude`) -/

/-- Outcome of `luaL_loadbuffer` on the prelude text: on success the
compiled chunk is pushed; on failure the engine pushes an error object.
Either way exactly one value lands on the stack. -/
inductive LoadResult where
  | ok (chunk : SV)
  | err (errObj : SV)

/-- The single value `luaL_loadbuffer` leaves on top of the stack. -/
def LoadResult.pushed : LoadResult → SV
  | LoadResult.ok chunk => chunk
  | LoadResult.err errObj => errObj

/-- Outcome of `lua_pcall(s, 0, 1, 0)` on a given stack-top value: on
success the single requested result is left on top; on failure (including
the value not being callable, which is what happens when the load step
already failed) the error object is left on top. -/
inductive PCallOutcome where
  | ok (ret : SV)
  | err (errObj : SV)

/-- The single value `lua_pcall(s, 0, 1, 0)` leaves on top of the stack in
place of the called value. -/
def PCallOutcome.left : PCallOutcome → SV
  | PCallOutcome.ok ret => ret
  | PCallOutcome.err errObj => errObj

/-- The engine state as the prelude loader sees it. -/
structure PreludeState where
  globals : String → SV
  stack : List SV

/-- `Surge::LuaSupport::loadSurgePrelude` (LuaSupport.cpp lines 266-278).
`load` is the outcome of `luaL_loadbuffer` on the bundled prelude source,
`run` maps the value the load step pushed to the outcome of
`lua_pcall(s, 0, 1, 0)` on it.  Neither status code is inspected: the
value left on top of the stack — the chunk's return value on success, the
engine's error object on failure — is unconditionally popped into the
global `surge`, and the function returns true. -/
def loadSurgePrelude (load : LoadResult) (run : SV → PCallOutcome)
    (st : PreludeState) : PreludeState × Bool :=
  -- auto load_stat = luaL_loadbuffer(...)
  let st1 := { st with stack := load.pushed :: st.stack }
  -- auto pcall = lua_pcall(s, 0, 1, 0)
  let st2 := { st1 with stack := (run load.pushed).left :: st1.stack.tail }
  -- lua_setglobal(s, "surge")
  let st3 : PreludeState :=
    { globals := fun n => if n = "surge" then (run load.pushed).left else st2.globals n,
      stack := st2.stack.tail }
  (st3, true)

/-! ### The stack-discipline guard (`SGLD`) -/

/-- The guard object.  `top` is the operand-stack depth recorded at
construction; `Lpresent` models the `if (L)` null check in the
destructor.  The constructor lives in the (absent) header; modelled from
the spec: "on construction, records current operand-stack depth under a
caller-supplied label". -/
structure SGLD where
  label : String
  top : Nat
  Lpresent : Bool

/-- Modelled from the spec: the `SGLD` constructor, recording the current
stack depth under the caller's label. -/
def SGLD.enter (label : String) (stk : List SV) : SGLD :=
  { label := label, top := stk.length, Lpresent := true }

/-- `Surge::LuaSupport::SGLD::~SGLD` (LuaSupport.cpp lines 282-295): on
scope exit, re-read the depth; if it differs from the recorded one, print
one diagnostic naming the label and both depths.  Returns the (untouched)
stack and the list of emitted diagnostics. -/
def SGLD.dtor (g : SGLD) (stk : List SV) : List SV × List String :=
  if g.Lpresent then
    let nt := stk.length
    if nt ≠ g.top then
      (stk, ["Guarded stack leak: [" ++ g.label ++ "] exit=" ++ toString nt ++
        " enter=" ++ toString g.top])
    else
      (stk, [])
  else
    (stk, [])

/-- A concrete post-execution global table: `f` is bound to a string (a
non-callable global), everything else is nil. -/
def c3Globals : String → SV := fun n => if n = "f" then SV.str "hello" else SV.nil

/-- A concrete wrap scenario: one Lua function on the stack, a one-entry
`math` table, nothing else. -/
def c4State : EnvState :=
  { globals := fun n => if n = "math" then SV.tableref 0 else SV.nil,
    tables := [[("pi", SV.num 3)]],
    funcEnvs := fun _ => none,
    stack := [SV.funcref 0] }

/-- A concrete engine state before wrapping: a `math` table with one key,
a non-whitelisted global `os`, one Lua function on the stack. -/
def c1State : EnvState :=
  { globals := fun n =>
      if n = "math" then SV.tableref 0
      else if n = "os" then SV.str "dangerous"
      else SV.nil,
    tables := [[("floor", SV.funcref 3)]],
    funcEnvs := fun _ => none,
    stack := [SV.funcref 0] }

/-- A concrete call: `fft_forward` on a length-7 sequence of ones. -/
def c5State7 : FFTState :=
  { arrTables := [List.replicate 7 (SV.num 1)], cache := fftCache,
    stack := [SV.tableref 0] }

/-- An empty input sequence (length 0) for `fft_forward`. -/
def c5State0 : FFTState :=
  { arrTables := [[]], cache := fftCache, stack := [SV.tableref 0] }

/-- The failing input of claim C2: a length-8 all-zeros sequence. -/
def zeros8 : List SV := List.replicate 8 (SV.num 0)

/-- The engine state for `fft_forward({0,0,0,0,0,0,0,0})`. -/
def c2State : FFTState :=
  { arrTables := [zeros8], cache := fftCache, stack := [SV.tableref 0] }

/-! ## Supporting lemmas -/

theorem isPowerOfTwo_two_pow (k : Nat) : IsPowerOfTwo (2 ^ k) = true := by
  have hne : (2 : Nat) ^ k ≠ 0 := (Nat.pos_pow_of_pos k (by norm_num)).ne'
  unfold IsPowerOfTwo
  have hand : (2 ^ k) &&& (2 ^ k - 1) = 0 := by
    rw [Nat.and_pow_two_sub_one_eq_mod, Nat.mod_self]
  simp [hne, hand]

theorem isPowerOfTwo_sound : ∀ x : Nat, IsPowerOfTwo x = true → ∃ k, x = 2 ^ k := by
  intro x
  induction x using Nat.strong_induction_on with
  | _ x ih =>
    intro hx
    unfold IsPowerOfTwo at hx
    rw [Bool.and_eq_true, decide_eq_true_iff, beq_iff_eq] at hx
    obtain ⟨hne, hand⟩ := hx
    rcases Nat.even_or_odd x with he | ho
    · obtain ⟨m, hm⟩ := he
      have hm2 : x = 2 * m := by omega
      have hmpos : 0 < m := by omega
      -- x = bit false m, x - 1 = bit true (m - 1); the low bits contribute 0
      have hbit : x &&& (x - 1) = 2 * (m &&& (m - 1)) := by
        have h1 : x = Nat.bit false m := by simp [Nat.bit_val, hm2]
        have h2 : x - 1 = Nat.bit true (m - 1) := by simp [Nat.bit_val]; omega
        rw [h2, h1, Nat.land_bit]
        simp [Nat.bit_val]
      have hmand : m &&& (m - 1) = 0 := by omega
      have hm0 : m ≠ 0 := hmpos.ne'
      have hmp2 : IsPowerOfTwo m = true := by
        unfold IsPowerOfTwo
        simp [hm0, hmand]
      obtain ⟨k, hk⟩ := ih m (by omega) hmp2
      exact ⟨k + 1, by rw [hm2, hk]; ring⟩
    · obtain ⟨m, hm⟩ := ho
      rcases Nat.eq_zero_or_pos m with h0 | hpos
      · exact ⟨0, by omega⟩
      · exfalso
        have h1 : x = Nat.bit true m := by simp [Nat.bit_val]; omega
        have h2 : x - 1 = Nat.bit false m := by simp [Nat.bit_val]; omega
        have hx2 : x &&& (x - 1) = 2 * m := by
          rw [h2, h1, Nat.land_bit]
          simp [Nat.bit_val]
        omega

/-- The bit trick in `IsPowerOfTwo` recognises exactly the (positive) powers
of two. -/
theorem isPowerOfTwo_iff (x : Nat) : IsPowerOfTwo x = true ↔ ∃ k, x = 2 ^ k := by
  constructor
  · exact isPowerOfTwo_sound x
  · rintro ⟨k, rfl⟩
    exact isPowerOfTwo_two_pow k

theorem lru_get_wf (c : LRU) (k : Nat) (h : c.WF) :
    ((c.get k).2.2).WF := by
  obtain ⟨hnd, hlen, hsz⟩ := h
  cases hfind : c.entries.find? (fun p => p.1 == k) with
  | some p =>
      have hpmem : p ∈ c.entries := List.mem_of_find?_eq_some hfind
      have hpk : p.1 = k := by
        have := List.find?_some hfind
        simpa using this
      have hsub : List.Sublist (c.entries.filter (fun q => q.1 ≠ k)) c.entries :=
        List.filter_sublist _
      unfold LRU.WF
      simp only [LRU.get, hfind]
      refine ⟨?_, ?_, ?_⟩
      · simp only [List.map_cons, List.nodup_cons]
        constructor
        · intro hmem
          obtain ⟨q, hq, hqk⟩ := List.mem_map.mp hmem
          have hqne : q.1 ≠ k := by
            have := (List.mem_filter.mp hq).2
            simpa using this
          exact hqne hqk
        · exact (hsub.map Prod.fst).nodup hnd
      · have hle : (c.entries.filter (fun q => q.1 ≠ k)).length < c.entries.length := by
          have hx : p ∉ c.entries.filter (fun q => q.1 ≠ k) := by
            intro hmem
            have := (List.mem_filter.mp hmem).2
            simp [hpk] at this
          rcases Nat.lt_or_ge (c.entries.filter (fun q => q.1 ≠ k)).length c.entries.length with hlt | hge
          · exact hlt
          · exfalso
            have heq : c.entries.filter (fun q => q.1 ≠ k) = c.entries :=
              hsub.eq_of_length_le hge
            rw [heq] at hx
            exact hx hpmem
        simp only [List.length_cons]
        omega
      · intro q hq
        rcases List.mem_cons.mp hq with hq1 | hq2
        · subst hq1
          have := hsz p hpmem
          simpa [hpk] using this
        · exact hsz q (List.mem_of_mem_filter hq2)
  | none =>
      unfold LRU.WF
      simp only [LRU.get, hfind]
      refine ⟨?_, ?_, ?_⟩
      · have hknotin : k ∉ c.entries.map Prod.fst := by
          intro hmem
          obtain ⟨q, hq, hqk⟩ := List.mem_map.mp hmem
          have := List.find?_eq_none.mp hfind q hq
          simp [hqk] at this
        have hnd2 : (((k, FFTElement.make k) :: c.entries).map Prod.fst).Nodup := by
          simp only [List.map_cons, List.nodup_cons]
          exact ⟨hknotin, hnd⟩
        have hsubt : List.Sublist (((k, FFTElement.make k) :: c.entries).take c.capacity)
            ((k, FFTElement.make k) :: c.entries) := List.take_sublist _ _
        exact (hsubt.map Prod.fst).nodup hnd2
      · exact List.length_take_le c.capacity _
      · intro q hq
        have hq2 : q ∈ (k, FFTElement.make k) :: c.entries :=
          List.mem_of_mem_take hq
        rcases List.mem_cons.mp hq2 with hq3 | hq4
        · subst hq3; exact ⟨rfl, rfl, rfl⟩
        · exact hsz q hq4

theorem runGets_wf (c : LRU) (ks : List Nat) (h : c.WF) :
    (runGets c ks).WF := by
  induction ks generalizing c with
  | nil => exact h
  | cons k rest ih => exact ih _ (lru_get_wf c k h)

theorem fftCache_wf : fftCache.WF := by
  refine ⟨?_, ?_, ?_⟩ <;> simp [fftCache]

theorem extractLoop_spec (g : String → SV) :
    ∀ (l : List String) (stk : List SV) (res : Nat),
      extractLoop g l stk res =
        (res + (l.filter (fun n => (g n).isCallable)).length,
          (l.reverse.map (placeholder g)) ++ stk) := by
  intro l
  induction l with
  | nil => intro stk res; simp [extractLoop]
  | cons x rest ih =>
      intro stk res
      by_cases hc : (g x).isCallable = true
      · rw [extractLoop]
        simp only [hc, if_true, ih, Prod.mk.injEq]
        refine ⟨by simp [List.filter_cons, hc]; omega, ?_⟩
        simp [placeholder, hc]
      · have hcf : (g x).isCallable = false := by
          cases hh : (g x).isCallable
          · rfl
          · exact absurd hh hc
        by_cases hn : (g x).isNil = true
        · have hveq : g x = SV.nil := by
            cases hv : g x <;> simp [SV.isNil, hv] at hn ⊢
          rw [extractLoop]
          simp only [hcf, Bool.false_eq_true, if_false, hn, Bool.not_true, if_false, ih,
            Prod.mk.injEq]
          refine ⟨by simp [List.filter_cons, hcf], ?_⟩
          simp [placeholder, hcf, hveq]
        · have hnf : (g x).isNil = false := by
            cases hh : (g x).isNil
            · rfl
            · exact absurd hh hn
          rw [extractLoop]
          simp only [hcf, Bool.false_eq_true, if_false, hnf, Bool.not_false, if_true,
            List.tail_cons, ih, Prod.mk.injEq]
          refine ⟨by simp [List.filter_cons, hcf], ?_⟩
          simp [placeholder, hcf]

theorem tget_tset_ne (t : LTable) (k k' : String) (v : SV) (h : k' ≠ k) :
    tget (tset t k v) k' = tget t k' := by
  unfold tset tget
  by_cases hany : t.any (fun p => p.1 == k) = true
  · simp only [hany, if_true, List.find?_map]
    have hpred : ((fun p : String × SV => p.1 == k') ∘
        (fun p : String × SV => if p.1 == k then (k, v) else p)) =
        fun p : String × SV => p.1 == k' := by
      funext q
      by_cases hq : q.1 = k
      · have hkk' : (k == k') = false := by
          simp only [beq_eq_false_iff_ne]
          exact fun hh => h hh.symm
        have hqk' : (q.1 == k') = false := by
          simp only [beq_eq_false_iff_ne, hq]
          exact fun hh => h hh.symm
        simp [Function.comp, hq, hkk', hqk']
      · simp [Function.comp, hq]
    rw [hpred]
    cases hf : t.find? (fun p => p.1 == k') with
    | none => simp
    | some q =>
        have hq : (q.1 == k') = true := by
          have := List.find?_some hf
          simpa using this
        have hqk : q.1 ≠ k := by
          have hq' : q.1 = k' := by simpa using hq
          rw [hq']
          exact h
        simp [hqk]
  · simp only [hany, Bool.false_eq_true, if_false]
    rw [List.find?_append]
    have h2 : List.find? (fun p : String × SV => p.1 == k') [(k, v)] = none := by
      have hkk' : (k == k') = false := by
        simp only [beq_eq_false_iff_ne]
        exact fun hh => h hh.symm
      simp [hkk']
    rw [h2]
    cases hf : List.find? (fun p : String × SV => p.1 == k') t with
    | some q => simp
    | none => simp

theorem tget_flattenMath_notin (mathT : LTable) (env : LTable) (name : String)
    (h : name ∉ mathT.map Prod.fst) :
    tget (flattenMath env mathT) name = tget env name := by
  induction mathT generalizing env with
  | nil => rfl
  | cons p rest ih =>
      have hne : name ≠ p.1 := by
        intro hh
        exact h (by simp [hh])
      have hrest : name ∉ rest.map Prod.fst := by
        intro hh
        exact h (by simp [hh])
      unfold flattenMath at ih ⊢
      simp only [List.foldl_cons]
      rw [ih _ hrest, tget_tset_ne _ _ _ _ hne]

theorem tget_surgeEnv_notin (g : String → SV) (mathT : LTable) (name : String)
    (h : name ∉ allowedNames mathT) :
    tget (surgeEnv g mathT) name = SV.nil := by
  have hmath : name ∉ mathT.map Prod.fst := by
    intro hh
    exact h (by simp [allowedNames, hh])
  have hname : ∀ s : String, s ∈ ["math", "surge", "ipairs", "error", "limit_range",
      "clamp", "fft_forward"] → name ≠ s := by
    intro s hs hh
    subst hh
    exact h (by simp [allowedNames] at hs ⊢; tauto)
  unfold surgeEnv
  rw [tget_flattenMath_notin _ _ _ hmath]
  unfold envWithPrimitives envBase functionWhitelist
  simp only [List.foldl_cons, List.foldl_nil]
  rw [tget_tset_ne _ _ _ _ (hname _ (by simp)),
    tget_tset_ne _ _ _ _ (hname _ (by simp)),
    tget_tset_ne _ _ _ _ (hname _ (by simp)),
    tget_tset_ne _ _ _ _ (hname _ (by simp)),
    tget_tset_ne _ _ _ _ (hname _ (by simp)),
    tget_tset_ne _ _ _ _ (hname _ (by simp)),
    tget_tset_ne _ _ _ _ (hname _ (by simp))]
  rfl

/-! ## Claim theorems -/

/-- Claim C8: `loadSurgePrelude` reports success on every call, for every
engine state and for every outcome of the internal compile and execute
steps — including compile or runtime failure of the bundled prelude. -/
theorem loadSurgePrelude_always_reports_success (load : LoadResult)
    (run : SV → PCallOutcome) (st : PreludeState) :
    (loadSurgePrelude load run st).2 = true := rfl

/-- Claim C10: after every call to `loadSurgePrelude` the global `surge`
is assigned the value the load/execute step left on top of the stack: the
chunk's single return value on success, the engine's error object on
compile or runtime failure — the binding is mutated even on the error
path.  The rest of the globals and the stack are untouched. -/
theorem loadSurgePrelude_assigns_surge_unconditionally (load : LoadResult)
    (run : SV → PCallOutcome) (st : PreludeState) :
    ((loadSurgePrelude load run st).1.globals "surge" = (run load.pushed).left) ∧
    (∀ e, run load.pushed = PCallOutcome.err e →
      (loadSurgePrelude load run st).1.globals "surge" = e) ∧
    (∀ n, n ≠ "surge" → (loadSurgePrelude load run st).1.globals n = st.globals n) ∧
    (loadSurgePrelude load run st).1.stack = st.stack := by
  refine ⟨by simp [loadSurgePrelude], ?_, ?_, by simp [loadSurgePrelude]⟩
  · intro e he
    simp [loadSurgePrelude, he, PCallOutcome.left]
  · intro n hn
    simp [loadSurgePrelude, hn]

theorem loadSurgePrelude_assigns_surge_unconditionally_witness :
    (loadSurgePrelude (LoadResult.err (SV.str "prelude compile failed"))
      (fun _ => PCallOutcome.err (SV.str "attempt to call a string value"))
      { globals := fun _ => SV.nil, stack := [] }).1.globals "surge" =
      SV.str "attempt to call a string value" :=
  (loadSurgePrelude_assigns_surge_unconditionally
    (LoadResult.err (SV.str "prelude compile failed"))
    (fun _ => PCallOutcome.err (SV.str "attempt to call a string value"))
    { globals := fun _ => SV.nil, stack := [] }).2.1
    (SV.str "attempt to call a string value") rfl

/-- Claim C9: the stack-discipline guard's destructor never modifies the
operand stack; it emits no diagnostic when the exit depth equals the
depth recorded at construction, and emits exactly one diagnostic carrying
the caller's label and both depths when they differ.  (It only prints:
the model's destructor is a total function, so it never aborts.) -/
theorem sgld_dtor_diagnostics (label : String) (stk stk' : List SV) :
    ((SGLD.enter label stk).dtor stk').1 = stk' ∧
    (stk'.length = stk.length → ((SGLD.enter label stk).dtor stk').2 = []) ∧
    (stk'.length ≠ stk.length →
      ((SGLD.enter label stk).dtor stk').2 =
        ["Guarded stack leak: [" ++ label ++ "] exit=" ++ toString stk'.length ++
          " enter=" ++ toString stk.length]) := by
  unfold SGLD.enter SGLD.dtor
  by_cases h : stk'.length = stk.length
  · simp [h]
  · simp [h]

theorem sgld_dtor_diagnostics_witness :
    (([SV.nil] : List SV).length ≠ ([] : List SV).length) ∧
    ((SGLD.enter "t" ([] : List SV)).dtor [SV.nil]).2 =
      ["Guarded stack leak: [" ++ "t" ++ "] exit=" ++ toString ([SV.nil] : List SV).length ++
        " enter=" ++ toString ([] : List SV).length] ∧
    ((SGLD.enter "t" ([] : List SV)).dtor []).2 = [] :=
  ⟨by decide,
   (sgld_dtor_diagnostics "t" [] [SV.nil]).2.2 (by decide),
   (sgld_dtor_diagnostics "t" [] []).2.1 rfl⟩

/-- Claim C6: for every script text the engine rejects with a syntax
error, the loader returns count 0, sets a non-empty diagnostic of kind
SyntaxError carrying the engine's parse message, leaves exactly one nil
placeholder per requested name on the stack, and does not touch the
globals. -/
theorem parse_syntax_error_spec (msg : String)
    (exec : (String → SV) → ExecOutcome) (functions : List String)
    (em0 : String) (st : LoaderState) :
    (parseStringDefiningMultipleFunctions (CompileResult.synErr msg) exec
        functions em0 st).count = 0 ∧
    (parseStringDefiningMultipleFunctions (CompileResult.synErr msg) exec
        functions em0 st).errorMessage = "Lua Syntax Error: " ++ msg ∧
    (parseStringDefiningMultipleFunctions (CompileResult.synErr msg) exec
        functions em0 st).errorMessage ≠ "" ∧
    (parseStringDefiningMultipleFunctions (CompileResult.synErr msg) exec
        functions em0 st).state.stack =
      List.replicate functions.length SV.nil ++ st.stack ∧
    (parseStringDefiningMultipleFunctions (CompileResult.synErr msg) exec
        functions em0 st).state.globals = st.globals := by
  refine ⟨rfl, rfl, ?_, rfl, rfl⟩
  intro h
  have h2 : "Lua Syntax Error: " ++ msg = "" := h
  have hlen := congrArg String.length h2
  rw [String.length_append] at hlen
  simp only [String.length_empty, Nat.add_eq_zero] at hlen
  exact absurd hlen.1 (by decide)

/-- Claim C3 counterexample: requesting `f` when the global `f` holds a
string.  The loop's `lua_pop(L, 1); lua_pushnil(L)` replaces the fetched
copy on the operand stack, but never calls `lua_setglobal`, so after the
call the global `f` still holds the string — it is not overwritten with
nil as the claim states (the name is indeed not counted). -/
theorem parse_noncallable_global_kept :
    (parseStringDefiningMultipleFunctions CompileResult.ok
        (fun _ => ExecOutcome.ok c3Globals) ["f"] "" ⟨c3Globals, []⟩).state.globals "f" =
      SV.str "hello" ∧
    ¬ ((parseStringDefiningMultipleFunctions CompileResult.ok
        (fun _ => ExecOutcome.ok c3Globals) ["f"] "" ⟨c3Globals, []⟩).state.globals "f" =
      SV.nil) ∧
    (parseStringDefiningMultipleFunctions CompileResult.ok
        (fun _ => ExecOutcome.ok c3Globals) ["f"] "" ⟨c3Globals, []⟩).count = 0 := by
  refine ⟨rfl, ?_, rfl⟩
  intro h
  exact absurd h (by decide)

/-- Claim C3 (amended): for a requested name whose global exists but is
not callable after successful execution, the loader leaves a nil
placeholder for that name on the operand stack (so the caller fetches
nil) and the name does not contribute to the returned count; the global
variable itself is left unchanged — it is not overwritten with nil. -/
theorem parse_noncallable_placeholder_nil (g : String → SV)
    (functions : List String) (em0 : String) (st : LoaderState) (name : String)
    (hmem : name ∈ functions) (hnc : (g name).isCallable = false) :
    (parseStringDefiningMultipleFunctions CompileResult.ok
        (fun _ => ExecOutcome.ok g) functions em0 st).state.globals name = g name ∧
    (parseStringDefiningMultipleFunctions CompileResult.ok
        (fun _ => ExecOutcome.ok g) functions em0 st).count =
      (functions.filter (fun n => (g n).isCallable)).length ∧
    (parseStringDefiningMultipleFunctions CompileResult.ok
        (fun _ => ExecOutcome.ok g) functions em0 st).state.stack =
      functions.map (placeholder g) ++ st.stack ∧
    placeholder g name = SV.nil ∧
    SV.nil ∈ functions.map (placeholder g) := by
  have hph : placeholder g name = SV.nil := by
    unfold placeholder
    simp [hnc]
  refine ⟨rfl, ?_, ?_, hph, ?_⟩
  · show (extractLoop g functions.reverse st.stack 0).1 = _
    rw [extractLoop_spec]
    simp [List.filter_reverse]
  · show (extractLoop g functions.reverse st.stack 0).2 = _
    rw [extractLoop_spec]
    simp
  · rw [← hph]
    exact List.mem_map_of_mem (placeholder g) hmem

theorem parse_noncallable_placeholder_nil_witness :
    ("f" ∈ ["f"]) ∧ ((c3Globals "f").isCallable = false) ∧
    placeholder c3Globals "f" = SV.nil ∧
    (parseStringDefiningMultipleFunctions CompileResult.ok
        (fun _ => ExecOutcome.ok c3Globals) ["f"] "" ⟨c3Globals, []⟩).state.globals "f" =
      c3Globals "f" :=
  ⟨by decide, by decide,
   (parse_noncallable_placeholder_nil c3Globals ["f"] "" ⟨c3Globals, []⟩ "f"
     (by decide) (by decide)).2.2.2.1,
   (parse_noncallable_placeholder_nil c3Globals ["f"] "" ⟨c3Globals, []⟩ "f"
     (by decide) (by decide)).1⟩

/-- Claim C4 counterexample: `setSurgeFunctionEnvironment` succeeds on
`c4State` but does not consume the function: the claim predicts the exit
stack is the entry stack with the function removed (here, empty), yet the
function is still on the stack on exit (`lua_setfenv(L, -2)` pops only
the environment table, leaving the function in place). -/
theorem setSurgeFunctionEnvironment_leaves_function :
    (setSurgeFunctionEnvironment c4State).1 = true ∧
    (setSurgeFunctionEnvironment c4State).2.stack = [SV.funcref 0] ∧
    ¬ ((setSurgeFunctionEnvironment c4State).2.stack = []) := by
  refine ⟨rfl, rfl, ?_⟩
  intro h
  have h2 : ([SV.funcref 0] : List SV) = [] := h
  simp at h2

/-- Claim C4 (amended): when `setSurgeFunctionEnvironment` returns true,
the operand stack on exit equals the stack on entry — the input function
is left in place (now carrying its new environment), with nothing
consumed, added, or altered on the stack; the globals are untouched, and
the only changes are engine-internal bookkeeping (one fresh environment
table and the function's environment binding). -/
theorem setSurgeFunctionEnvironment_stack_preserved (st : EnvState)
    (_h : (setSurgeFunctionEnvironment st).1 = true) :
    (setSurgeFunctionEnvironment st).2.stack = st.stack ∧
    (setSurgeFunctionEnvironment st).2.globals = st.globals := by
  unfold setSurgeFunctionEnvironment
  cases hstk : st.stack with
  | nil => exact ⟨hstk.symm ▸ rfl, rfl⟩
  | cons v rest =>
      dsimp only
      by_cases hc : v.isCallable = true
      · rw [if_pos hc]
        cases v <;> exact ⟨rfl, rfl⟩
      · rw [if_neg hc]
        exact ⟨hstk, rfl⟩

theorem setSurgeFunctionEnvironment_stack_preserved_witness :
    (setSurgeFunctionEnvironment c4State).1 = true ∧
    (setSurgeFunctionEnvironment c4State).2.stack = c4State.stack :=
  ⟨rfl, (setSurgeFunctionEnvironment_stack_preserved c4State rfl).1⟩

theorem surgeEnv_congr (g1 g2 : String → SV) (mathT : LTable)
    (hm : g1 "math" = g2 "math") (hs : g1 "surge" = g2 "surge")
    (hi : g1 "ipairs" = g2 "ipairs") (he : g1 "error" = g2 "error") :
    surgeEnv g1 mathT = surgeEnv g2 mathT := by
  unfold surgeEnv envWithPrimitives envBase functionWhitelist
  simp only [List.foldl_cons, List.foldl_nil]
  rw [hm, hs, hi, he]

theorem sandbox_wrap_lookup (st : EnvState) (fid : Nat) (rest : List SV) (mid : Nat)
    (hstk : st.stack = SV.funcref fid :: rest)
    (hmath : st.globals "math" = SV.tableref mid) (name : String) :
    globalLookupInFunc (setSurgeFunctionEnvironment st).2 fid name =
      tget (surgeEnv st.globals (st.tableAt mid)) name := by
  have hres : setSurgeFunctionEnvironment st =
      (true, EnvState.mk st.globals
        (st.tables ++ [surgeEnv st.globals (st.tableAt mid)])
        (fun i => if i = fid then some st.tables.length else st.funcEnvs i)
        (SV.funcref fid :: rest)) := by
    unfold setSurgeFunctionEnvironment
    rw [hstk, hmath]
    rfl
  rw [hres]
  simp [globalLookupInFunc, EnvState.tableAt, List.getD]

theorem sandbox_wrap_returns_true (st : EnvState) (fid : Nat) (rest : List SV)
    (hstk : st.stack = SV.funcref fid :: rest) :
    (setSurgeFunctionEnvironment st).1 = true := by
  unfold setSurgeFunctionEnvironment
  rw [hstk]
  rfl

/-- Claim C1: after wrapping, every global-identifier lookup inside the
wrapped function resolves exclusively through its private environment
table, which binds only: the math library table (also flattened
key-by-key into the top level), the host `surge` table, the whitelisted
`ipairs` and `error`, and the registered primitives `limit_range`,
`clamp` and `fft_forward`.  Every other pre-existing global resolves to
nil from inside the wrapped function, and two engine states differing
only in non-whitelisted globals are indistinguishable to it. -/
theorem sandbox_environment_isolation (st : EnvState) (fid : Nat) (rest : List SV)
    (mid : Nat) (hstk : st.stack = SV.funcref fid :: rest)
    (hmath : st.globals "math" = SV.tableref mid) :
    ((setSurgeFunctionEnvironment st).1 = true) ∧
    (∀ name, globalLookupInFunc (setSurgeFunctionEnvironment st).2 fid name =
        tget (surgeEnv st.globals (st.tableAt mid)) name) ∧
    (∀ name, name ∉ allowedNames (st.tableAt mid) →
        globalLookupInFunc (setSurgeFunctionEnvironment st).2 fid name = SV.nil) ∧
    (∀ st2 : EnvState, st2.stack = st.stack → st2.tables = st.tables →
        st2.globals "math" = st.globals "math" →
        st2.globals "surge" = st.globals "surge" →
        st2.globals "ipairs" = st.globals "ipairs" →
        st2.globals "error" = st.globals "error" →
        ∀ name, globalLookupInFunc (setSurgeFunctionEnvironment st2).2 fid name =
          globalLookupInFunc (setSurgeFunctionEnvironment st).2 fid name) := by
  refine ⟨sandbox_wrap_returns_true st fid rest hstk,
    sandbox_wrap_lookup st fid rest mid hstk hmath, ?_, ?_⟩
  · intro name hname
    rw [sandbox_wrap_lookup st fid rest mid hstk hmath name]
    exact tget_surgeEnv_notin _ _ _ hname
  · intro st2 hs ht hm hsu hip herr name
    have hstk2 : st2.stack = SV.funcref fid :: rest := by rw [hs, hstk]
    have hmath2 : st2.globals "math" = SV.tableref mid := by rw [hm, hmath]
    rw [sandbox_wrap_lookup st2 fid rest mid hstk2 hmath2 name,
      sandbox_wrap_lookup st fid rest mid hstk hmath name]
    have htab : st2.tableAt mid = st.tableAt mid := by
      unfold EnvState.tableAt
      rw [ht]
    rw [htab, surgeEnv_congr st2.globals st.globals (st.tableAt mid) hm hsu hip herr]

theorem sandbox_environment_isolation_witness :
    (c1State.stack = SV.funcref 0 :: []) ∧
    (c1State.globals "math" = SV.tableref 0) ∧
    (c1State.globals "os" = SV.str "dangerous") ∧
    ("os" ∉ allowedNames (c1State.tableAt 0)) ∧
    globalLookupInFunc (setSurgeFunctionEnvironment c1State).2 0 "os" = SV.nil :=
  ⟨rfl, rfl, rfl, by decide,
   (sandbox_environment_isolation c1State 0 [] 0 rfl rfl).2.2.1 "os" (by decide)⟩

theorem fftReadLoop_error_typeCheck (arr : List SV) :
    ∀ (remaining i : Nat) (stk : List SV) (acc : List ℚ) (e : LuaErr),
      fftReadLoop arr i stk acc remaining = Except.error e →
      ∃ m, e = LuaErr.typeCheck m := by
  intro remaining
  induction remaining with
  | zero =>
      intro i stk acc e h
      simp [fftReadLoop] at h
  | succ r ih =>
      intro i stk acc e h
      rw [fftReadLoop] at h
      split at h
      · exact ⟨"number expected", (Except.error.inj h).symm⟩
      · exact ih _ _ _ _ h

theorem fftWriteLoop_error_typeCheck (output : List ℚ) :
    ∀ (remaining i : Nat) (stk : List SV) (e : LuaErr),
      fftWriteLoop output i stk remaining = Except.error e →
      ∃ m, e = LuaErr.typeCheck m := by
  intro remaining
  induction remaining with
  | zero =>
      intro i stk e h
      simp [fftWriteLoop] at h
  | succ r ih =>
      intro i stk e h
      rw [fftWriteLoop] at h
      split at h
      · exact ih _ _ _ h
      · exact ⟨"table expected", (Except.error.inj h).symm⟩

/-- Claim C5: `lua_FFTForward` raises an InvalidArgument-class error on
the engine's own error channel — catchable by the invoking script, never
a host-level exception — exactly when the input sequence's length is not
a positive power of two (length 0 included); when the length is a power
of two this error branch is not taken.  `Except.error` carries no result
state, so no transform output is produced on that path. -/
theorem fftForward_power_of_two_guard (transform : Nat → List ℚ → List ℚ)
    (st : FFTState) (tid : Nat)
    (htop : st.stack.headD SV.nil = SV.tableref tid) :
    ((∃ m, lua_FFTForward transform st =
        Except.error (LuaErr.invalidArgument m)) ↔
      ¬ ∃ k, (st.arrTables.getD tid []).length = 2 ^ k) := by
  unfold lua_FFTForward
  rw [htop]
  dsimp only
  by_cases hp : IsPowerOfTwo (st.arrTables.getD tid []).length = true
  · have hcond : ¬ (IsPowerOfTwo (st.arrTables.getD tid []).length = false) :=
      fun hf => Bool.noConfusion (hp.symm.trans hf)
    rw [if_neg hcond]
    have hpow : ∃ k, (st.arrTables.getD tid []).length = 2 ^ k :=
      (isPowerOfTwo_iff _).mp hp
    constructor
    · intro hle
      exfalso
      obtain ⟨m, hm⟩ := hle
      cases hr : fftReadLoop (st.arrTables.getD tid []) 0 st.stack []
          (st.arrTables.getD tid []).length with
      | error e =>
          rw [hr] at hm
          obtain ⟨m2, rfl⟩ := fftReadLoop_error_typeCheck _ _ _ _ _ _ hr
          exact LuaErr.noConfusion (Except.error.inj hm)
      | ok r =>
          rw [hr] at hm
          dsimp only at hm
          cases hw : fftWriteLoop
              (transform ((st.cache.get (st.arrTables.getD tid []).length).1.setupSize) r.1) 0
              (SV.tableref st.arrTables.length :: r.2.tail)
              (st.arrTables.getD tid []).length with
          | error e =>
              rw [hw] at hm
              obtain ⟨m2, rfl⟩ := fftWriteLoop_error_typeCheck _ _ _ _ _ hw
              exact LuaErr.noConfusion (Except.error.inj hm)
          | ok stk3 =>
              rw [hw] at hm
              exact Except.noConfusion hm
    · intro hrhs
      exact absurd hpow hrhs
  · have hcond : IsPowerOfTwo (st.arrTables.getD tid []).length = false := by
      cases hv : IsPowerOfTwo (st.arrTables.getD tid []).length
      · rfl
      · exact absurd hv hp
    rw [if_pos hcond]
    constructor
    · intro _
      rw [← isPowerOfTwo_iff]
      exact fun ht => Bool.noConfusion (hcond.symm.trans ht)
    · intro _
      exact ⟨"FFT size must be a power of two.", rfl⟩

theorem fftForward_power_of_two_guard_witness :
    (c5State7.stack.headD SV.nil = SV.tableref 0) ∧
    (∃ m, lua_FFTForward (fun _ input => input) c5State7 =
      Except.error (LuaErr.invalidArgument m)) ∧
    (∃ m, lua_FFTForward (fun _ input => input) c5State0 =
      Except.error (LuaErr.invalidArgument m)) :=
  ⟨rfl,
   (fftForward_power_of_two_guard (fun _ input => input) c5State7 0 rfl).mpr
     (by rw [← isPowerOfTwo_iff]; decide),
   (fftForward_power_of_two_guard (fun _ input => input) c5State0 0 rfl).mpr
     (by rw [← isPowerOfTwo_iff]; decide)⟩

/-- Claim C2, the code evaluated at the claimed input: on a length-8
all-zeros sequence `lua_FFTForward` does not return a zero sequence — it
raises a number-expected type error on the first element read, because
`luaL_checknumber(L, -2)` inspects the input table (stack slot `-2`)
instead of the element `lua_rawgeti` just pushed (slot `-1`).  (Had the
read loop survived, `lua_rawseti(L, -1, i+1)` in the write loop targets
the number it just pushed rather than the result table, failing the same
way.)  The transform is never performed and no sequence is returned. -/
theorem fftForward_zeros8_raises_typeCheck :
    lua_FFTForward (fun _ input => input) c2State =
      Except.error (LuaErr.typeCheck "number expected") := rfl

theorem lru_get_capacity (c : LRU) (k : Nat) :
    ((c.get k).2.2).capacity = c.capacity := by
  cases hfind : c.entries.find? (fun p => p.1 == k) with
  | some p => simp only [LRU.get, hfind]
  | none => simp only [LRU.get, hfind]

theorem runGets_capacity (c : LRU) (ks : List Nat) :
    (runGets c ks).capacity = c.capacity := by
  induction ks generalizing c with
  | nil => rfl
  | cons k rest ih =>
      show (runGets ((c.get k).2.2) rest).capacity = c.capacity
      rw [ih, lru_get_capacity]

theorem lru_lookup_none_iff (c : LRU) (k : Nat) :
    c.lookup k = none ↔ c.entries.find? (fun p => p.1 == k) = none := by
  unfold LRU.lookup
  cases c.entries.find? (fun p => p.1 == k) <;> simp

theorem lru_get_fresh_of_miss (c : LRU) (k : Nat) (h : c.lookup k = none) :
    (c.get k).2.1 = true := by
  have hf := (lru_lookup_none_iff c k).mp h
  simp only [LRU.get, hf]

theorem lru_get_full_no_growth (c : LRU) (k : Nat)
    (hlen : c.entries.length = c.capacity) (h : c.lookup k = none) :
    ((c.get k).2.2).entries.length = c.capacity := by
  have hf := (lru_lookup_none_iff c k).mp h
  simp only [LRU.get, hf, List.length_take, List.length_cons, hlen]
  omega

theorem lru_get_evicts_last (c : LRU) (k : Nat) (q : Nat × FFTElement)
    (hnd : (c.entries.map Prod.fst).Nodup)
    (hlen : c.entries.length = c.capacity) (hmiss : c.lookup k = none)
    (hlast : c.entries.getLast? = some q) :
    ((c.get k).2.2).lookup q.1 = none := by
  have hf := (lru_lookup_none_iff c k).mp hmiss
  have hne : c.entries ≠ [] := by
    intro h0
    rw [h0] at hlast
    exact Option.noConfusion hlast
  obtain ⟨hne2, hq⟩ := List.mem_getLast?_eq_getLast (Option.mem_def.mpr hlast)
  have hsplit : c.entries.dropLast ++ [q] = c.entries := by
    rw [hq]
    exact List.dropLast_append_getLast hne2
  have hcap1 : 1 ≤ c.capacity := by
    have := List.length_pos.mpr hne
    omega
  have hqmem : q ∈ c.entries := by
    rw [← hsplit]
    simp
  have hqk : (k == q.1) = false := by
    have := List.find?_eq_none.mp hf q hqmem
    simp only [beq_iff_eq] at this
    simp only [beq_eq_false_iff_ne]
    intro hh
    exact this hh.symm
  have htake : ((k, FFTElement.make k) :: c.entries).take c.capacity =
      (k, FFTElement.make k) :: c.entries.dropLast := by
    obtain ⟨m, hm⟩ : ∃ m, c.capacity = m + 1 := ⟨c.capacity - 1, by omega⟩
    rw [hm, List.take_succ_cons, List.dropLast_eq_take, hlen, hm]
    simp
  have hnotin : ∀ p ∈ c.entries.dropLast, (p.1 == q.1) = false := by
    have hnd2 : ((c.entries.dropLast ++ [q]).map Prod.fst).Nodup := by
      rw [hsplit]
      exact hnd
    simp only [List.map_append, List.map_cons, List.map_nil] at hnd2
    have hq1notin : q.1 ∉ c.entries.dropLast.map Prod.fst := by
      intro hmem
      have hdisj := (List.nodup_append.mp hnd2).2.2
      exact hdisj hmem (by simp)
    intro p hp
    simp only [beq_eq_false_iff_ne]
    intro hh
    exact hq1notin (hh ▸ List.mem_map_of_mem Prod.fst hp)
  rw [lru_lookup_none_iff]
  simp only [LRU.get, hf, htake]
  rw [List.find?_cons_of_neg _ (by simp [hqk])]
  exact List.find?_eq_none.mpr (fun p hp => by simp [hnotin p hp])

/-- Claim C7: after every sequence of `get(size)` requests with positive
power-of-two sizes against the (initially empty, capacity-5) `fftCache`:
at most one entry per distinct size; every entry's scratch buffer and
transform plan are sized exactly to its key (they live and die together
inside one `FFTElement`); at most 5 entries in total; when an insertion
would exceed capacity the least-recently-used entry is evicted instead of
the cache growing; and a size that is absent (in particular an evicted
one) is freshly constructed when requested again. -/
theorem fftCache_lru_invariants (ks : List Nat)
    (_hks : ∀ k ∈ ks, ∃ j, k = 2 ^ j) :
    ((runGets fftCache ks).entries.map Prod.fst).Nodup ∧
    (runGets fftCache ks).entries.length ≤ 5 ∧
    (∀ p ∈ (runGets fftCache ks).entries,
      p.2.size = p.1 ∧ p.2.dataLen = p.1 ∧ p.2.setupSize = p.1) ∧
    (∀ k, (runGets fftCache ks).lookup k = none →
      ((runGets fftCache ks).get k).2.1 = true) ∧
    (∀ k, (runGets fftCache ks).entries.length = 5 →
      (runGets fftCache ks).lookup k = none →
      (((runGets fftCache ks).get k).2.2).entries.length = 5) ∧
    (∀ k q, (runGets fftCache ks).entries.length = 5 →
      (runGets fftCache ks).lookup k = none →
      (runGets fftCache ks).entries.getLast? = some q →
      (((runGets fftCache ks).get k).2.2).lookup q.1 = none ∧
      ((((runGets fftCache ks).get k).2.2).get q.1).2.1 = true) := by
  have hcap : (runGets fftCache ks).capacity = 5 := runGets_capacity fftCache ks
  have hwf := runGets_wf fftCache ks fftCache_wf
  obtain ⟨hnd, hlen, hsz⟩ := hwf
  refine ⟨hnd, hcap ▸ hlen, hsz, ?_, ?_, ?_⟩
  · intro k hk
    exact lru_get_fresh_of_miss _ k hk
  · intro k h5 hk
    have := lru_get_full_no_growth _ k (by rw [hcap, h5]) hk
    rw [hcap] at this
    exact this
  · intro k q h5 hk hlast
    have hev := lru_get_evicts_last _ k q hnd (by rw [hcap, h5]) hk hlast
    exact ⟨hev, lru_get_fresh_of_miss _ q.1 hev⟩

theorem fftCache_lru_invariants_witness :
    (∀ k ∈ [1, 2, 4, 8, 16, 32], ∃ j, k = 2 ^ j) ∧
    ((runGets fftCache [1, 2, 4, 8, 16, 32]).lookup 1 = none) ∧
    (((runGets fftCache [1, 2, 4, 8, 16, 32]).get 1).2.1 = true) := by
  have hpows : ∀ k ∈ [1, 2, 4, 8, 16, 32], ∃ j, (k : Nat) = 2 ^ j := by
    intro k hk
    simp at hk
    rcases hk with rfl | rfl | rfl | rfl | rfl | rfl
    · exact ⟨0, rfl⟩
    · exact ⟨1, rfl⟩
    · exact ⟨2, rfl⟩
    · exact ⟨3, rfl⟩
    · exact ⟨4, rfl⟩
    · exact ⟨5, rfl⟩
  refine ⟨hpows, by decide, ?_⟩
  exact (fftCache_lru_invariants [1, 2, 4, 8, 16, 32] hpows).2.2.2.1 1 (by decide)
